import Mathlib

/-!
Verification development for the roma trading backend.

This file shallowly embeds, over exact rationals, the position-sizing
pipeline of `TradingAgent._execute_open_long` / `_execute_open_short`
and the close-quantity resolution of `TradingAgent._execute_close`
(src/backend/src/roma_trading/agents/trading_agent.py), together with
the trade-lifecycle ledger `DecisionLogger.record_open_position` /
`record_close_position` (src/backend/src/roma_trading/core/decision_logger.py),
and the trading-lock discipline of `TradingAgent.trading_cycle` with the
shared `asyncio.Lock` built by `AgentManager.__init__`.

Python float arithmetic is modelled by exact rational arithmetic; Python's
`round(x, 3)` (banker's rounding) is modelled by `pyRound3`.
-/

namespace Roma

/-- Python's `round` uses round-half-to-even on the scaled value. -/
def roundHalfEven (x : ℚ) : ℤ :=
  let f := Int.floor x
  let r := x - f
  if r < 1/2 then f
  else if r > 1/2 then f + 1
  else if Even f then f else f + 1

/-- Model of Python `round(x, 3)`. -/
def pyRound3 (x : ℚ) : ℚ := (roundHalfEven (x * 1000) : ℚ) / 1000

/-! ## Account, positions and risk configuration -/

/-- Slice of the dict returned by `dex.get_account_balance()` used by the
sizing pipeline: `total_wallet_balance` and `available_balance`. -/
structure Account where
  total_wallet_balance : ℚ
  available_balance : ℚ
  deriving DecidableEq, Repr

/-- Slice of one entry of `dex.get_positions()` used by the sizing pipeline:
`position_amt`, `entry_price`, `leverage`. -/
structure PositionRecord where
  position_amt : ℚ
  entry_price : ℚ
  leverage : ℚ
  deriving DecidableEq, Repr

/-- The per-agent risk ceilings read from
`config["strategy"]["risk_management"]` in the open path:
`max_single_trade_pct`, `max_single_trade_with_positions_pct`,
`max_total_position_pct`. -/
structure RiskCfg where
  max_single_trade_pct : ℚ
  max_single_trade_with_positions_pct : ℚ
  max_total_position_pct : ℚ
  deriving DecidableEq, Repr

/-- `total_margin_used = sum(abs(p['position_amt']) * p['entry_price'] / p['leverage'])`
over the open positions (trading_agent.py, open path). -/
def totalMarginUsed (ps : List PositionRecord) : ℚ :=
  (ps.map (fun p => |p.position_amt| * p.entry_price / p.leverage)).sum

/-- `max_trade_amount = available * (max_trade_pct / 100)` where the pct is
`max_single_trade_with_positions_pct` when positions exist, else
`max_single_trade_pct` (trading_agent.py, open path). -/
def maxTradeAmount (cfg : RiskCfg) (acct : Account) (ps : List PositionRecord) : ℚ :=
  let pct := if ps.isEmpty then cfg.max_single_trade_pct
             else cfg.max_single_trade_with_positions_pct
  acct.available_balance * (pct / 100)

/-- `max_total_margin = account['total_wallet_balance'] * (max_total_pct / 100)`. -/
def maxTotalMargin (cfg : RiskCfg) (acct : Account) : ℚ :=
  acct.total_wallet_balance * (cfg.max_total_position_pct / 100)

/-- The two margin clamps at the head of `_execute_open_long` /
`_execute_open_short`: the single-trade ceiling clamp, then the
total-position-limit clamp, which rejects (`none`) when the remaining
headroom is below 0.1 USD. Returns the clamped `position_size_usd`. -/
def marginAfterClamps (cfg : RiskCfg) (acct : Account) (ps : List PositionRecord)
    (psu : ℚ) : Option ℚ :=
  let mta := maxTradeAmount cfg acct ps
  let psu1 := if psu > mta then mta else psu
  let used := totalMarginUsed ps
  let mtm := maxTotalMargin cfg acct
  if used + psu1 > mtm then
    let remaining := mtm - used
    if remaining < 1/10 then none else some remaining
  else some psu1

/-- The result of an admitted open order: the quantity submitted to the
venue, the final `position_size_usd` (margin) and the estimated
post-formatting quantity `round(quantity * 0.95, 3)`. -/
structure AdmittedOpen where
  quantity : ℚ
  margin : ℚ
  estQty : ℚ
  deriving DecidableEq, Repr

/-- The tail of the open pipeline: the 5% formatting-haircut estimate and
the final affordability check `required_margin > available -> skip`. -/
def finalCheck (acct : Account) (price lev margin qty : ℚ) : Option AdmittedOpen :=
  let est := pyRound3 (qty * (95/100))
  if est * price / lev > acct.available_balance then none
  else some ⟨qty, margin, est⟩

/-- The full open-order sizing pipeline shared (textually duplicated) by
`TradingAgent._execute_open_long` and `TradingAgent._execute_open_short`:
single-trade clamp, total-limit clamp, margin-to-quantity conversion,
0.001 minimum-quantity floor bump with its affordability and
single-trade-ceiling re-checks, then the 5% haircut final check.
`some r` means the order is submitted via `dex.open_long`/`open_short`. -/
def openSizing (cfg : RiskCfg) (acct : Account) (ps : List PositionRecord)
    (price lev psu : ℚ) : Option AdmittedOpen :=
  match marginAfterClamps cfg acct ps psu with
  | none => none
  | some m =>
    if m * lev / price < 1/1000 then
      let minMargin := (1/1000 : ℚ) * price / lev
      if minMargin > acct.available_balance then none
      else if minMargin > maxTradeAmount cfg acct ps then none
      else finalCheck acct price lev minMargin (1/1000)
    else
      finalCheck acct price lev m (m * lev / price)

/-! ## Close-quantity resolution (`TradingAgent._execute_close`) -/

/-- Outcome of the close-quantity resolution inside `_execute_close`:
either the close is skipped ("Computed close quantity too small") or a
close order is submitted with an explicit quantity (`some q`) or a full
close (`none`, Python's `quantity=None`). -/
inductive CloseOutcome where
  | rejected
  | submit (q : Option ℚ)
  deriving DecidableEq, Repr

/-- The `close_quantity` resolution of `_execute_close`. `absField` models
the presence of the `close_quantity` key (inner `none` = `float()` raised,
which defaults to a full close); `pctField` models `close_quantity_pct`
the same way. A non-positive percentage defaults to a full close; a
percentage above 1 is rescaled by 100 and capped at 1. -/
def resolveCloseQuantity (absField : Option (Option ℚ)) (pctField : Option (Option ℚ))
    (position_amt : ℚ) : Option ℚ :=
  match absField with
  | some v => v
  | none =>
    match pctField with
    | some (some p) =>
      if p ≤ 0 then none
      else some (position_amt * min (if p > 1 then p / 100 else p) 1)
    | some none => none
    | none => none

/-- The clamping and minimum-size gate of `_execute_close` after the
quantity resolution: an explicit quantity is clamped to
`min(position_amt, max(0, q))` and the close is skipped when the result
is ≤ 1e-12; a `None` quantity submits a full close unconditionally. -/
def executeCloseSizing (absField : Option (Option ℚ)) (pctField : Option (Option ℚ))
    (position_amt : ℚ) : CloseOutcome :=
  match resolveCloseQuantity absField pctField position_amt with
  | none => .submit none
  | some cq0 =>
    let cq := min position_amt (max 0 cq0)
    if cq ≤ 1/1000000000000 then .rejected else .submit (some cq)

/-! ## Trade ledger (`DecisionLogger`) -/

/-- An `OpenPositionLedgerEntry` of `DecisionLogger.open_positions`
(`symbol` and `side` are carried by the key). `open_time` is an opaque
timestamp. -/
structure OpenEntry where
  entry_price : ℚ
  quantity : ℚ
  leverage : ℚ
  open_time : ℕ
  deriving DecidableEq, Repr

/-- A `ClosedTrade` record appended to `DecisionLogger.trade_history`. -/
structure ClosedTrade where
  symbol : String
  side : String
  entry_price : ℚ
  close_price : ℚ
  quantity : ℚ
  leverage : ℚ
  pnl_pct : ℚ
  pnl_usdt : ℚ
  open_time : ℕ
  close_time : ℕ
  deriving DecidableEq, Repr

/-- The mutable state of a `DecisionLogger`: the open-positions dict
(association list with Python-dict lookup semantics) and the append-only
trade history. -/
structure LoggerState where
  open_positions : List (String × OpenEntry)
  trade_history : List ClosedTrade
  deriving DecidableEq, Repr

/-- `key = f"{symbol}_{side}"`. -/
def posKey (symbol side : String) : String := symbol ++ "_" ++ side

/-- Dict assignment `d[key] = v` on the association-list model. -/
def setEntry (k : String) (v : OpenEntry) (l : List (String × OpenEntry)) :
    List (String × OpenEntry) :=
  (k, v) :: l.filter (fun p => p.1 ≠ k)

/-- Dict removal `d.pop(key, None)` on the association-list model. -/
def eraseEntry (k : String) (l : List (String × OpenEntry)) :
    List (String × OpenEntry) :=
  l.filter (fun p => p.1 ≠ k)

/-- `DecisionLogger.record_open_position`: unconditionally assigns a fresh
entry to `open_positions[key]`, replacing any previous entry wholesale. -/
def recordOpenPosition (st : LoggerState) (symbol side : String)
    (entry_price quantity : ℚ) (leverage : ℚ) (now : ℕ) : LoggerState :=
  { st with open_positions :=
      setEntry (posKey symbol side) ⟨entry_price, quantity, leverage, now⟩ st.open_positions }

/-- `DecisionLogger._save_trade_history`: the file write is wrapped in a
`try/except Exception` that only logs, so both outcomes return unit and
nothing is surfaced to the caller. -/
def saveTradeHistory (w : Except String Unit) : Unit :=
  match w with
  | .ok _ => ()
  | .error _ => ()

/-- `DecisionLogger.record_close_position`, with the outcome of the
trade-history file write made explicit as `w`. Returns the appended
`ClosedTrade` (or `none` for the no-entry / non-positive-quantity no-ops)
and the new logger state. -/
def recordClosePositionW (st : LoggerState) (symbol side : String)
    (close_price : ℚ) (quantity : Option ℚ) (now : ℕ) (w : Except String Unit) :
    Option ClosedTrade × LoggerState :=
  let key := posKey symbol side
  match st.open_positions.lookup key with
  | none => (none, st)
  | some pos =>
    let cq := match quantity with
      | none => pos.quantity
      | some q => min pos.quantity (max 0 q)
    if cq ≤ 0 then (none, st)
    else
      let pnl_pct := if side = "long"
        then (close_price - pos.entry_price) / pos.entry_price * 100
        else (pos.entry_price - close_price) / pos.entry_price * 100
      let pnl_usdt := if side = "long"
        then (close_price - pos.entry_price) * cq * pos.leverage
        else (pos.entry_price - close_price) * cq * pos.leverage
      let trade : ClosedTrade :=
        ⟨symbol, side, pos.entry_price, close_price, cq, pos.leverage,
         pnl_pct, pnl_usdt, pos.open_time, now⟩
      let _ := saveTradeHistory w
      let remaining := pos.quantity - cq
      let newOpen := if remaining ≤ 1/1000000000
        then eraseEntry key st.open_positions
        else setEntry key { pos with quantity := remaining } st.open_positions
      (some trade, { open_positions := newOpen,
                     trade_history := st.trade_history ++ [trade] })

/-- `record_close_position` with a successful file write. -/
def recordClosePosition (st : LoggerState) (symbol side : String)
    (close_price : ℚ) (quantity : Option ℚ) (now : ℕ) :
    Option ClosedTrade × LoggerState :=
  recordClosePositionW st symbol side close_price quantity now (.ok ())

/-- One close call in a sequence: the arguments of one
`record_close_position` invocation. -/
structure CloseOp where
  symbol : String
  side : String
  close_price : ℚ
  quantity : Option ℚ
  now : ℕ

/-- A sequence of `record_close_position` calls, threading the state. -/
def applyCloses (st : LoggerState) (ops : List CloseOp) : LoggerState :=
  ops.foldl (fun s op =>
    (recordClosePosition s op.symbol op.side op.close_price op.quantity op.now).2) st

/-- Every entry of the open-positions dict has a non-negative quantity. -/
def entriesNonneg (st : LoggerState) : Prop :=
  ∀ p ∈ st.open_positions, 0 ≤ p.2.quantity

instance (st : LoggerState) : Decidable (entriesNonneg st) := by
  unfold entriesNonneg; infer_instance

/-! ## Trading-cycle mutual exclusion

`AgentManager.__init__` creates one `asyncio.Lock` and passes it to every
`TradingAgent` it constructs (`trading_lock=self.trading_lock`);
`TradingAgent.trading_cycle` wraps its whole body — stale-order cleanup,
account/position fetch, decision, order execution, ledger write — in
`async with self.trading_lock`. We model two agents sharing one account
as a transition system: a cycle acquires the lock, reads the balance,
then admits its order (margin `m`) exactly when `m` fits the balance it
observed, commits (debits) and releases. Because the read and the commit
both require holding the lock, no step of the other agent can interleave
between them. -/

/-- Program counter of one agent's cycle. -/
inductive CyclePC where
  | idle
  | locked
  | readDone
  | done
  deriving DecidableEq, Repr

/-- Local state of one agent: program counter, the `available_balance` it
observed after acquiring the lock, and whether its order was admitted. -/
structure AgentLocal where
  pc : CyclePC
  obs : ℚ
  admitted : Bool
  deriving DecidableEq, Repr

/-- Shared state of two concurrently scheduled cycles: the lock owner
(`none` = free, `some false` = agent 0, `some true` = agent 1), the
account's available balance, and each agent's local state. -/
structure CState where
  lock : Option Bool
  balance : ℚ
  ag0 : AgentLocal
  ag1 : AgentLocal
  deriving DecidableEq, Repr

/-- One cooperative step of the two-agent system. `m0`, `m1` are the
margins the two cycles try to commit. Acquire requires the lock free;
read and commit require holding it; commit admits exactly when the margin
fits the observed balance, debits it and releases the lock. -/
inductive CycleStep (m0 m1 : ℚ) : CState → CState → Prop where
  | acquire0 (b : ℚ) (A0 A1 : AgentLocal) (h : A0.pc = .idle) :
      CycleStep m0 m1 ⟨none, b, A0, A1⟩ ⟨some false, b, { A0 with pc := .locked }, A1⟩
  | acquire1 (b : ℚ) (A0 A1 : AgentLocal) (h : A1.pc = .idle) :
      CycleStep m0 m1 ⟨none, b, A0, A1⟩ ⟨some true, b, A0, { A1 with pc := .locked }⟩
  | read0 (b : ℚ) (A0 A1 : AgentLocal) (h : A0.pc = .locked) :
      CycleStep m0 m1 ⟨some false, b, A0, A1⟩
        ⟨some false, b, { A0 with pc := .readDone, obs := b }, A1⟩
  | read1 (b : ℚ) (A0 A1 : AgentLocal) (h : A1.pc = .locked) :
      CycleStep m0 m1 ⟨some true, b, A0, A1⟩
        ⟨some true, b, A0, { A1 with pc := .readDone, obs := b }⟩
  | commitYes0 (b : ℚ) (A0 A1 : AgentLocal) (h : A0.pc = .readDone) (hle : m0 ≤ A0.obs) :
      CycleStep m0 m1 ⟨some false, b, A0, A1⟩
        ⟨none, b - m0, { A0 with pc := .done, admitted := true }, A1⟩
  | commitNo0 (b : ℚ) (A0 A1 : AgentLocal) (h : A0.pc = .readDone) (hgt : ¬ m0 ≤ A0.obs) :
      CycleStep m0 m1 ⟨some false, b, A0, A1⟩ ⟨none, b, { A0 with pc := .done }, A1⟩
  | commitYes1 (b : ℚ) (A0 A1 : AgentLocal) (h : A1.pc = .readDone) (hle : m1 ≤ A1.obs) :
      CycleStep m0 m1 ⟨some true, b, A0, A1⟩
        ⟨none, b - m1, A0, { A1 with pc := .done, admitted := true }⟩
  | commitNo1 (b : ℚ) (A0 A1 : AgentLocal) (h : A1.pc = .readDone) (hgt : ¬ m1 ≤ A1.obs) :
      CycleStep m0 m1 ⟨some true, b, A0, A1⟩ ⟨none, b, A0, { A1 with pc := .done }⟩

/-- Initial state: lock free, balance `b0`, both cycles not yet started. -/
def initState (b0 : ℚ) : CState :=
  ⟨none, b0, ⟨.idle, 0, false⟩, ⟨.idle, 0, false⟩⟩

/-- States reachable by interleaving the two lock-respecting cycles. -/
def Reachable (m0 m1 b0 : ℚ) (s : CState) : Prop :=
  Relation.ReflTransGen (CycleStep m0 m1) (initState b0) s

/-- Inductive invariant of the two-cycle system. -/
def CycleInv (b0 m0 m1 : ℚ) (s : CState) : Prop :=
  (s.balance + (cond s.ag0.admitted m0 0) + (cond s.ag1.admitted m1 0) = b0)
  ∧ 0 ≤ s.balance
  ∧ (s.ag0.pc = .readDone → s.lock = some false ∧ s.ag0.obs = s.balance)
  ∧ (s.ag1.pc = .readDone → s.lock = some true ∧ s.ag1.obs = s.balance)
  ∧ (s.ag0.pc ≠ .done → s.ag0.admitted = false)
  ∧ (s.ag1.pc ≠ .done → s.ag1.admitted = false)

lemma cycleInv_init (b0 : ℚ) (hb : 0 ≤ b0) : CycleInv b0 m0 m1 (initState b0) := by
  refine ⟨by simp [initState], by simpa [initState] using hb, ?_, ?_, ?_, ?_⟩ <;>
    simp [initState]

lemma cycleInv_step (hm0 : 0 ≤ m0) (hm1 : 0 ≤ m1)
    (hstep : CycleStep m0 m1 s s') (hinv : CycleInv b0 m0 m1 s) :
    CycleInv b0 m0 m1 s' := by
  obtain ⟨h1, h2, h3, h4, h5, h6⟩ := hinv
  cases hstep with
  | acquire0 b A0 A1 h =>
    refine ⟨h1, h2, ?_, ?_, ?_, h6⟩
    · intro hpc; simp at hpc
    · intro hpc; exact absurd (h4 hpc).1 (by simp)
    · intro _; exact h5 (by simp [h])
  | acquire1 b A0 A1 h =>
    refine ⟨h1, h2, ?_, ?_, h5, ?_⟩
    · intro hpc; exact absurd (h3 hpc).1 (by simp)
    · intro hpc; simp at hpc
    · intro _; exact h6 (by simp [h])
  | read0 b A0 A1 h =>
    refine ⟨h1, h2, ?_, ?_, ?_, h6⟩
    · intro _; exact ⟨rfl, rfl⟩
    · intro hpc; exact absurd (h4 hpc).1 (by simp)
    · intro _; exact h5 (by simp [h])
  | read1 b A0 A1 h =>
    refine ⟨h1, h2, ?_, ?_, h5, ?_⟩
    · intro hpc; exact absurd (h3 hpc).1 (by simp)
    · intro _; exact ⟨rfl, rfl⟩
    · intro _; exact h6 (by simp [h])
  | commitYes0 b A0 A1 h hle =>
    have hadm0 : A0.admitted = false := h5 (by simp [h])
    have hobs : A0.obs = b := (h3 h).2
    have h1' : b + (cond A0.admitted m0 0) + (cond A1.admitted m1 0) = b0 := h1
    rw [hadm0] at h1'
    simp only [Bool.cond_false, add_zero] at h1'
    refine ⟨?_, ?_, ?_, ?_, ?_, h6⟩
    · show b - m0 + (cond true m0 0) + (cond A1.admitted m1 0) = b0
      simp only [Bool.cond_true]; linarith
    · show (0 : ℚ) ≤ b - m0
      have : m0 ≤ b := hobs ▸ hle
      linarith
    · intro hpc; simp at hpc
    · intro hpc; exact absurd (h4 hpc).1 (by simp)
    · intro hpc; simp at hpc
  | commitNo0 b A0 A1 h hgt =>
    have hadm0 : A0.admitted = false := h5 (by simp [h])
    refine ⟨h1, h2, ?_, ?_, ?_, h6⟩
    · intro hpc; simp at hpc
    · intro hpc; exact absurd (h4 hpc).1 (by simp)
    · intro _; exact hadm0
  | commitYes1 b A0 A1 h hle =>
    have hadm1 : A1.admitted = false := h6 (by simp [h])
    have hobs : A1.obs = b := (h4 h).2
    have h1' : b + (cond A0.admitted m0 0) + (cond A1.admitted m1 0) = b0 := h1
    rw [hadm1] at h1'
    simp only [Bool.cond_false, add_zero] at h1'
    refine ⟨?_, ?_, ?_, ?_, h5, ?_⟩
    · show b - m1 + (cond A0.admitted m0 0) + (cond true m1 0) = b0
      simp only [Bool.cond_true]; linarith
    · show (0 : ℚ) ≤ b - m1
      have : m1 ≤ b := hobs ▸ hle
      linarith
    · intro hpc; exact absurd (h3 hpc).1 (by simp)
    · intro hpc; simp at hpc
    · intro hpc; simp at hpc
  | commitNo1 b A0 A1 h hgt =>
    have hadm1 : A1.admitted = false := h6 (by simp [h])
    refine ⟨h1, h2, ?_, ?_, h5, ?_⟩
    · intro hpc; exact absurd (h3 hpc).1 (by simp)
    · intro hpc; simp at hpc
    · intro _; exact hadm1

lemma cycleInv_reachable (hb : 0 ≤ b0) (hm0 : 0 ≤ m0) (hm1 : 0 ≤ m1)
    (h : Reachable m0 m1 b0 s) : CycleInv b0 m0 m1 s := by
  induction h with
  | refl => exact cycleInv_init b0 hb
  | tail _ hstep ih => exact cycleInv_step hm0 hm1 hstep ih

/-! ## Ledger dictionary lemmas -/

lemma lookup_setEntry (k : String) (v : OpenEntry) (l : List (String × OpenEntry)) :
    (setEntry k v l).lookup k = some v := by
  simp [setEntry, List.lookup]

lemma lookup_eraseEntry (k : String) (l : List (String × OpenEntry)) :
    (eraseEntry k l).lookup k = none := by
  induction l with
  | nil => rfl
  | cons p t ih =>
    by_cases hk : p.1 = k
    · simpa [eraseEntry, hk] using ih
    · have hbeq : (k == p.1) = false := beq_eq_false_iff_ne.mpr (Ne.symm hk)
      simpa [eraseEntry, List.lookup, hk, hbeq] using ih

lemma mem_setEntry {k : String} {v : OpenEntry} {l : List (String × OpenEntry)}
    {p : String × OpenEntry} (h : p ∈ setEntry k v l) : p = (k, v) ∨ p ∈ l := by
  rcases List.mem_cons.mp h with h | h
  · exact Or.inl h
  · exact Or.inr (List.mem_of_mem_filter h)

lemma mem_eraseEntry {k : String} {l : List (String × OpenEntry)}
    {p : String × OpenEntry} (h : p ∈ eraseEntry k l) : p ∈ l :=
  List.mem_of_mem_filter h

/-- Every single `record_close_position` call preserves non-negativity of
all open-ledger quantities: a surviving updated entry has quantity
`remaining > 1e-9 > 0`, an erase only removes entries, and the no-op
branches keep the state. -/
lemma recordClose_preserves_nonneg (st : LoggerState) (symbol side : String)
    (cp : ℚ) (q : Option ℚ) (now : ℕ) (hst : entriesNonneg st) :
    entriesNonneg (recordClosePosition st symbol side cp q now).2 := by
  unfold recordClosePosition recordClosePositionW
  dsimp only
  cases hl : st.open_positions.lookup (posKey symbol side) with
  | none => exact hst
  | some pos =>
    dsimp only
    split_ifs with hcq hside hrem hrem2
    · exact hst
    · intro p hp
      exact hst p (mem_eraseEntry hp)
    · intro p hp
      rcases mem_setEntry hp with rfl | hp
      · dsimp only
        push_neg at hrem
        linarith
      · exact hst p hp
    · intro p hp
      exact hst p (mem_eraseEntry hp)
    · intro p hp
      rcases mem_setEntry hp with rfl | hp
      · dsimp only
        push_neg at hrem2
        linarith
      · exact hst p hp

lemma applyCloses_preserves_nonneg (ops : List CloseOp) (st : LoggerState)
    (hst : entriesNonneg st) : entriesNonneg (applyCloses st ops) := by
  induction ops generalizing st with
  | nil => exact hst
  | cons op t ih =>
    exact ih _ (recordClose_preserves_nonneg st op.symbol op.side
      op.close_price op.quantity op.now hst)

/-! ## Sizing-pipeline lemmas -/

/-- The two clamps at the head of the open path only ever shrink the
requested margin, and leave total margin within the total cap. -/
lemma marginAfterClamps_le {cfg : RiskCfg} {acct : Account} {ps : List PositionRecord}
    {psu m : ℚ} (h : marginAfterClamps cfg acct ps psu = some m) :
    m ≤ psu ∧ totalMarginUsed ps + m ≤ maxTotalMargin cfg acct := by
  unfold marginAfterClamps at h
  dsimp only at h
  split_ifs at h with h0 h1 h2 h1' h2' <;>
    · obtain rfl := Option.some.inj h
      constructor <;> linarith

/-- `finalCheck` passes the margin and quantity through unchanged. -/
lemma finalCheck_fields {acct : Account} {price lev mg qt : ℚ} {r : AdmittedOpen}
    (h : finalCheck acct price lev mg qt = some r) :
    r.margin = mg ∧ r.quantity = qt ∧ r.estQty = pyRound3 (qt * (95/100))
      ∧ r.estQty * price / lev ≤ acct.available_balance := by
  unfold finalCheck at h
  dsimp only at h
  split_ifs at h with hgt
  obtain rfl := Option.some.inj h
  exact ⟨rfl, rfl, rfl, le_of_not_lt hgt⟩

/-! ## Evaluation lemmas for concrete pipeline runs -/

lemma marginAfterClamps_eval_noClamp (cfg : RiskCfg) (acct : Account)
    (ps : List PositionRecord) (psu : ℚ)
    (h0 : ¬ psu > maxTradeAmount cfg acct ps)
    (h1 : ¬ totalMarginUsed ps + psu > maxTotalMargin cfg acct) :
    marginAfterClamps cfg acct ps psu = some psu := by
  unfold marginAfterClamps
  dsimp only
  rw [if_neg h0, if_neg h1]

lemma marginAfterClamps_eval_clampSingle (cfg : RiskCfg) (acct : Account)
    (ps : List PositionRecord) (psu : ℚ)
    (h0 : psu > maxTradeAmount cfg acct ps)
    (h1 : ¬ totalMarginUsed ps + maxTradeAmount cfg acct ps > maxTotalMargin cfg acct) :
    marginAfterClamps cfg acct ps psu = some (maxTradeAmount cfg acct ps) := by
  unfold marginAfterClamps
  dsimp only
  rw [if_pos h0, if_neg h1]

lemma openSizing_eval_noBump (cfg : RiskCfg) (acct : Account)
    (ps : List PositionRecord) (price lev psu m est : ℚ)
    (hm : marginAfterClamps cfg acct ps psu = some m)
    (hq : ¬ m * lev / price < 1/1000)
    (hest : pyRound3 (m * lev / price * (95/100)) = est)
    (haff : ¬ est * price / lev > acct.available_balance) :
    openSizing cfg acct ps price lev psu = some ⟨m * lev / price, m, est⟩ := by
  unfold openSizing
  rw [hm]
  dsimp only
  rw [if_neg hq]
  unfold finalCheck
  dsimp only
  rw [hest, if_neg haff]

lemma openSizing_eval_bump (cfg : RiskCfg) (acct : Account)
    (ps : List PositionRecord) (price lev psu m est : ℚ)
    (hm : marginAfterClamps cfg acct ps psu = some m)
    (hq : m * lev / price < 1/1000)
    (h1 : ¬ (1/1000 : ℚ) * price / lev > acct.available_balance)
    (h2 : ¬ (1/1000 : ℚ) * price / lev > maxTradeAmount cfg acct ps)
    (hest : pyRound3 ((1/1000 : ℚ) * (95/100)) = est)
    (haff : ¬ est * price / lev > acct.available_balance) :
    openSizing cfg acct ps price lev psu
      = some ⟨1/1000, (1/1000 : ℚ) * price / lev, est⟩ := by
  unfold openSizing
  rw [hm]
  dsimp only
  rw [if_pos hq, if_neg h1, if_neg h2]
  unfold finalCheck
  dsimp only
  rw [hest, if_neg haff]

lemma openSizing_eval_bumpRejectBalance (cfg : RiskCfg) (acct : Account)
    (ps : List PositionRecord) (price lev psu m : ℚ)
    (hm : marginAfterClamps cfg acct ps psu = some m)
    (hq : m * lev / price < 1/1000)
    (h1 : (1/1000 : ℚ) * price / lev > acct.available_balance) :
    openSizing cfg acct ps price lev psu = none := by
  unfold openSizing
  rw [hm]
  dsimp only
  rw [if_pos hq, if_pos h1]

/-- `round(0.001 * 0.95, 3) = 0.001`: 0.95 rounds up to 1. -/
lemma pyRound3_bumpQty : pyRound3 ((1/1000 : ℚ) * (95/100)) = 1/1000 := by
  unfold pyRound3 roundHalfEven
  have hf : ⌊((1/1000 : ℚ) * (95/100) * 1000)⌋ = 0 := by
    rw [Int.floor_eq_iff] <;> norm_num
  rw [hf]
  norm_num

/-- `round(25 * 0.95, 3) = 23.75` (no rounding needed). -/
lemma pyRound3_scenario : pyRound3 ((25 : ℚ) * (95/100)) = 95/4 := by
  unfold pyRound3 roundHalfEven
  have hf : ⌊((25 : ℚ) * (95/100) * 1000)⌋ = 23750 := by
    rw [Int.floor_eq_iff] <;> norm_num
  rw [hf]
  norm_num

/-! ## Claim theorems -/

/-- Claim C1, counterexample: the claim as stated ("the final margin
committed, after all clamps, the minimum-quantity floor bump, and the 5%
formatting haircut, is ≤ the margin the intent originally requested")
fails on the code. With available and wallet balance 100,
`max_single_trade_pct = 50`, `max_total_position_pct = 80`, no open
positions, price 50000 and leverage 10, a requested margin of 1 USD
computes quantity 0.0002 < 0.001, so the floor bump raises the committed
margin to 0.001 × 50000 / 10 = 5 USD and the order is admitted with
margin 5 > 1. -/
theorem openSizing_bump_exceeds_request :
    openSizing ⟨50, 30, 80⟩ ⟨100, 100⟩ [] 50000 10 1 = some ⟨1/1000, 5, 1/1000⟩
    ∧ ¬ ((5 : ℚ) ≤ 1) := by
  constructor
  · have hm : marginAfterClamps ⟨50, 30, 80⟩ ⟨100, 100⟩ [] 1 = some 1 :=
      marginAfterClamps_eval_noClamp ⟨50, 30, 80⟩ ⟨100, 100⟩ [] 1
        (by norm_num [maxTradeAmount])
        (by norm_num [totalMarginUsed, maxTotalMargin])
    have h := openSizing_eval_bump ⟨50, 30, 80⟩ ⟨100, 100⟩ [] 50000 10 1 1 (1/1000)
      hm (by norm_num) (by norm_num)
      (by norm_num [maxTradeAmount]) pyRound3_bumpQty (by norm_num)
    rw [h]
    norm_num [AdmittedOpen.mk.injEq]
  · norm_num

/-- Claim C1 (amended): along the clamp-only path (no minimum-quantity
floor bump, i.e. the clamped margin converts to a quantity ≥ 0.001) every
admitted open order commits a margin ≤ the originally requested margin,
and total margin used plus the admitted margin stays within
`max_total_margin` (exactly, hence within the 0.1 USD tolerance). When
the floor bump fires, the committed margin is exactly
`0.001 × price / leverage`, and is re-checked against the available
balance and the single-trade ceiling (but not against the requested
margin or the total cap). This embeds both `_execute_open_long` and
`_execute_open_short`, whose sizing code is identical. -/
theorem openSizing_budget (cfg : RiskCfg) (acct : Account) (ps : List PositionRecord)
    (price lev psu m : ℚ) (r : AdmittedOpen)
    (hm : marginAfterClamps cfg acct ps psu = some m)
    (hr : openSizing cfg acct ps price lev psu = some r) :
    (¬ m * lev / price < 1/1000 →
      r.margin ≤ psu ∧ totalMarginUsed ps + r.margin ≤ maxTotalMargin cfg acct)
    ∧ (m * lev / price < 1/1000 →
      r.margin = (1/1000 : ℚ) * price / lev
        ∧ r.margin ≤ acct.available_balance
        ∧ r.margin ≤ maxTradeAmount cfg acct ps) := by
  have hb := marginAfterClamps_le hm
  unfold openSizing at hr
  rw [hm] at hr
  dsimp only at hr
  constructor
  · intro hq
    rw [if_neg hq] at hr
    have hf := finalCheck_fields hr
    rw [hf.1]
    exact hb
  · intro hq
    rw [if_pos hq] at hr
    split_ifs at hr with h1 h2
    have hf := finalCheck_fields hr
    rw [hf.1]
    exact ⟨rfl, le_of_not_lt h1, le_of_not_lt h2⟩

/-- Witness for C1 (amended) at a concrete clamp-only instance: ceilings
(50, 30, 80), wallet 2000, available 1000, no positions, price 100,
leverage 5, requested margin 600 → clamped to 500, quantity 25,
committed margin 500 ≤ 600 and 0 + 500 ≤ 1600. -/
theorem openSizing_budget_witness :
    marginAfterClamps ⟨50, 30, 80⟩ ⟨2000, 1000⟩ [] 600 = some 500
    ∧ openSizing ⟨50, 30, 80⟩ ⟨2000, 1000⟩ [] 100 5 600 = some ⟨25, 500, 95/4⟩
    ∧ (¬ (500 : ℚ) * 5 / 100 < 1/1000 →
        (⟨25, 500, 95/4⟩ : AdmittedOpen).margin ≤ 600
          ∧ totalMarginUsed [] + (⟨25, 500, 95/4⟩ : AdmittedOpen).margin
              ≤ maxTotalMargin ⟨50, 30, 80⟩ ⟨2000, 1000⟩) := by
  have hm : marginAfterClamps ⟨50, 30, 80⟩ ⟨2000, 1000⟩ [] 600 = some 500 := by
    have h := marginAfterClamps_eval_clampSingle ⟨50, 30, 80⟩ ⟨2000, 1000⟩ [] 600
      (by norm_num [maxTradeAmount])
      (by norm_num [maxTradeAmount, totalMarginUsed, maxTotalMargin])
    rw [h]
    norm_num [maxTradeAmount]
  have hr : openSizing ⟨50, 30, 80⟩ ⟨2000, 1000⟩ [] 100 5 600 = some ⟨25, 500, 95/4⟩ := by
    have hest : pyRound3 ((500 : ℚ) * 5 / 100 * (95/100)) = 95/4 := by
      rw [show (500 : ℚ) * 5 / 100 = 25 by norm_num]
      exact pyRound3_scenario
    have h := openSizing_eval_noBump ⟨50, 30, 80⟩ ⟨2000, 1000⟩ [] 100 5 600 500 (95/4)
      hm (by norm_num) hest (by norm_num)
    rw [h]
    norm_num [AdmittedOpen.mk.injEq]
  exact ⟨hm, hr, (openSizing_budget ⟨50, 30, 80⟩ ⟨2000, 1000⟩ [] 100 5 600 500
    ⟨25, 500, 95/4⟩ hm hr).1⟩

/-- Claim C6: end-to-end sizing scenario. With no open positions,
available balance 1000 (wallet 1000), `max_single_trade_pct = 50`
(so `max_trade_amount = 500`), a request of 700 USD margin at leverage 5
and market price 100 is clamped to 500, converts to quantity 25.0,
estimates the post-haircut quantity `round(25 × 0.95, 3) = 23.75`,
passes the final affordability check (475 ≤ 1000), and is admitted. -/
theorem openSizing_scenario :
    marginAfterClamps ⟨50, 30, 80⟩ ⟨1000, 1000⟩ [] 700 = some 500
    ∧ openSizing ⟨50, 30, 80⟩ ⟨1000, 1000⟩ [] 100 5 700 = some ⟨25, 500, 95/4⟩
    ∧ pyRound3 ((25 : ℚ) * (95/100)) = 95/4 := by
  have hm : marginAfterClamps ⟨50, 30, 80⟩ ⟨1000, 1000⟩ [] 700 = some 500 := by
    have h := marginAfterClamps_eval_clampSingle ⟨50, 30, 80⟩ ⟨1000, 1000⟩ [] 700
      (by norm_num [maxTradeAmount])
      (by norm_num [maxTradeAmount, totalMarginUsed, maxTotalMargin])
    rw [h]
    norm_num [maxTradeAmount]
  have hr : openSizing ⟨50, 30, 80⟩ ⟨1000, 1000⟩ [] 100 5 700 = some ⟨25, 500, 95/4⟩ := by
    have hest : pyRound3 ((500 : ℚ) * 5 / 100 * (95/100)) = 95/4 := by
      rw [show (500 : ℚ) * 5 / 100 = 25 by norm_num]
      exact pyRound3_scenario
    have h := openSizing_eval_noBump ⟨50, 30, 80⟩ ⟨1000, 1000⟩ [] 100 5 700 500 (95/4)
      hm (by norm_num) hest (by norm_num)
    rw [h]
    norm_num [AdmittedOpen.mk.injEq]
  exact ⟨hm, hr, pyRound3_scenario⟩

/-- Claim C5: minimum-quantity affordability boundary. With ceilings at
100% (so only the balance bound is at stake), price 50000 and leverage
10, any open intent whose margin converts to a quantity below the 0.001
floor is bumped: the recomputed margin is exactly
0.001 × 50000 / 10 = 5 USD; with available balance 5 the check
`min_margin_needed > available` is false at the exact boundary and the
order is admitted with margin 5, while with available balance 4.99 the
same intent is rejected. -/
theorem minQty_affordability_boundary (psu : ℚ) (h : psu * 10 / 50000 < 1/1000) :
    openSizing ⟨100, 100, 100⟩ ⟨5, 5⟩ [] 50000 10 psu = some ⟨1/1000, 5, 1/1000⟩
    ∧ openSizing ⟨100, 100, 100⟩ ⟨499/100, 499/100⟩ [] 50000 10 psu = none := by
  have hpsu : psu < 5 := by linarith
  constructor
  · have hm : marginAfterClamps ⟨100, 100, 100⟩ ⟨5, 5⟩ [] psu = some psu :=
      marginAfterClamps_eval_noClamp ⟨100, 100, 100⟩ ⟨5, 5⟩ [] psu
        (by norm_num [maxTradeAmount]; linarith)
        (by norm_num [totalMarginUsed, maxTotalMargin]; linarith)
    have hstep := openSizing_eval_bump ⟨100, 100, 100⟩ ⟨5, 5⟩ [] 50000 10 psu psu (1/1000)
      hm h (by norm_num)
      (by norm_num [maxTradeAmount]) pyRound3_bumpQty (by norm_num)
    rw [hstep]
    norm_num [AdmittedOpen.mk.injEq]
  · by_cases hgt : psu > 499/100
    · have hm := marginAfterClamps_eval_clampSingle ⟨100, 100, 100⟩
        ⟨499/100, 499/100⟩ [] psu
        (by norm_num [maxTradeAmount]; linarith)
        (by norm_num [maxTradeAmount, totalMarginUsed, maxTotalMargin])
      exact openSizing_eval_bumpRejectBalance ⟨100, 100, 100⟩ ⟨499/100, 499/100⟩ []
        50000 10 psu (maxTradeAmount ⟨100, 100, 100⟩ ⟨499/100, 499/100⟩ []) hm
        (by norm_num [maxTradeAmount]) (by norm_num)
    · have hle : psu ≤ 499/100 := le_of_not_lt hgt
      have hm : marginAfterClamps ⟨100, 100, 100⟩ ⟨499/100, 499/100⟩ [] psu
          = some psu :=
        marginAfterClamps_eval_noClamp ⟨100, 100, 100⟩ ⟨499/100, 499/100⟩ [] psu
          (by norm_num [maxTradeAmount]; linarith)
          (by norm_num [totalMarginUsed, maxTotalMargin]; linarith)
      exact openSizing_eval_bumpRejectBalance ⟨100, 100, 100⟩ ⟨499/100, 499/100⟩ []
        50000 10 psu psu hm h (by norm_num)

/-- Witness for C5 at requested margin 1: quantity 0.0002 < 0.001. -/
theorem minQty_affordability_boundary_witness :
    (1 : ℚ) * 10 / 50000 < 1/1000
    ∧ openSizing ⟨100, 100, 100⟩ ⟨5, 5⟩ [] 50000 10 1 = some ⟨1/1000, 5, 1/1000⟩
    ∧ openSizing ⟨100, 100, 100⟩ ⟨499/100, 499/100⟩ [] 50000 10 1 = none :=
  ⟨by norm_num, (minQty_affordability_boundary 1 (by norm_num)).1,
   (minQty_affordability_boundary 1 (by norm_num)).2⟩

/-- Claim C2: when two agents sharing one account run cycles under the
shared trading lock (the `asyncio.Lock` created once by
`AgentManager.__init__` and held by `TradingAgent.trading_cycle` around the
entire cycle body), it is never the case that both cycles admit orders
whose combined margin exceeds the initial balance; and a cycle that reads
the account after the other cycle committed observes the post-commit
balance `b0 - m`. In particular two cycles can never both read 100 USD
and each admit an 80 USD trade. -/
theorem trading_cycle_mutual_exclusion (m0 m1 b0 : ℚ) (s : CState)
    (hb : 0 ≤ b0) (hm0 : 0 ≤ m0) (hm1 : 0 ≤ m1) (hsum : b0 < m0 + m1)
    (hs : Reachable m0 m1 b0 s) :
    ¬ (s.ag0.admitted = true ∧ s.ag1.admitted = true)
    ∧ (s.ag1.pc = .readDone → s.ag0.admitted = true → s.ag1.obs = b0 - m0)
    ∧ (s.ag0.pc = .readDone → s.ag1.admitted = true → s.ag0.obs = b0 - m1) := by
  obtain ⟨h1, h2, h3, h4, h5, h6⟩ := cycleInv_reachable hb hm0 hm1 hs
  refine ⟨?_, ?_, ?_⟩
  · rintro ⟨ha0, ha1⟩
    rw [ha0, ha1] at h1
    simp only [Bool.cond_true] at h1
    linarith
  · intro hpc ha0
    have hobs := (h4 hpc).2
    have hadm1 : s.ag1.admitted = false := h6 (by simp [hpc])
    rw [ha0, hadm1] at h1
    simp only [Bool.cond_true, Bool.cond_false, add_zero] at h1
    linarith
  · intro hpc ha1
    have hobs := (h3 hpc).2
    have hadm0 : s.ag0.admitted = false := h5 (by simp [hpc])
    rw [ha1, hadm0] at h1
    simp only [Bool.cond_true, Bool.cond_false, add_zero] at h1
    linarith

/-- Witness for C2 at the spec's scenario: balance 100, two 80 USD
intents, evaluated at the (reachable) initial state. -/
theorem trading_cycle_mutual_exclusion_witness :
    ¬ ((initState 100).ag0.admitted = true ∧ (initState 100).ag1.admitted = true) :=
  (trading_cycle_mutual_exclusion 80 80 100 (initState 100) (by norm_num)
    (by norm_num) (by norm_num) (by norm_num) Relation.ReflTransGen.refl).1

/-- Claim C3: every `record_close_position` call that finds an open entry
(entry price `P = e.entry_price`, leverage `L = e.leverage`) and resolves
a positive close quantity appends a trade whose `pnl_usdt` is exactly
`(close_price − P) × Q × L` for a long and `(P − close_price) × Q × L`
for a short, where `Q = t.quantity` is the resolved close quantity; the
rational-arithmetic model has no intermediate rounding. -/
theorem recordClose_pnl (st : LoggerState) (symbol side : String) (cp : ℚ)
    (q : Option ℚ) (now : ℕ) (t : ClosedTrade) (st' : LoggerState) (e : OpenEntry)
    (h : recordClosePosition st symbol side cp q now = (some t, st'))
    (he : st.open_positions.lookup (posKey symbol side) = some e) :
    0 < t.quantity
    ∧ (side = "long" → t.pnl_usdt = (cp - e.entry_price) * t.quantity * e.leverage)
    ∧ (side = "short" → t.pnl_usdt = (e.entry_price - cp) * t.quantity * e.leverage) := by
  unfold recordClosePosition recordClosePositionW at h
  dsimp only at h
  rw [he] at h
  dsimp only at h
  split_ifs at h with hcq hside hrem hrem2
  · exact absurd (congrArg Prod.fst h) (by simp)
  · obtain ⟨hfst, hsnd⟩ := Prod.mk.inj h
    obtain rfl := Option.some.inj hfst
    exact ⟨not_le.mp hcq, fun _ => rfl, fun hs => by simp [hs] at hside⟩
  · obtain ⟨hfst, hsnd⟩ := Prod.mk.inj h
    obtain rfl := Option.some.inj hfst
    exact ⟨not_le.mp hcq, fun _ => rfl, fun hs => by simp [hs] at hside⟩
  · obtain ⟨hfst, hsnd⟩ := Prod.mk.inj h
    obtain rfl := Option.some.inj hfst
    exact ⟨not_le.mp hcq, fun hs => absurd hs hside, fun _ => rfl⟩
  · obtain ⟨hfst, hsnd⟩ := Prod.mk.inj h
    obtain rfl := Option.some.inj hfst
    exact ⟨not_le.mp hcq, fun hs => absurd hs hside, fun _ => rfl⟩

/-- Witness for C3: open BTC long at 100, quantity 2, leverage 3; close
quantity 1 at 110 → pnl_usdt = (110 − 100) × 1 × 3 = 30. -/
theorem recordClose_pnl_witness :
    (0 : ℚ) < 1
    ∧ ("long" = "long" → (30 : ℚ) = (110 - 100) * 1 * 3)
    ∧ ("long" = "short" → (30 : ℚ) = (100 - 110) * 1 * 3) :=
  recordClose_pnl ⟨[(posKey "BTC" "long", ⟨100, 2, 3, 0⟩)], []⟩ "BTC" "long" 110
    (some 1) 7 ⟨"BTC", "long", 100, 110, 1, 3, 10, 30, 0, 7⟩
    ⟨[(posKey "BTC" "long", ⟨100, 1, 3, 0⟩)],
     [⟨"BTC", "long", 100, 110, 1, 3, 10, 30, 0, 7⟩]⟩
    ⟨100, 2, 3, 0⟩
    (by norm_num [recordClosePosition, recordClosePositionW, posKey, List.lookup,
      setEntry, eraseEntry, saveTradeHistory, Prod.mk.injEq, LoggerState.mk.injEq,
      ClosedTrade.mk.injEq, OpenEntry.mk.injEq])
    (by simp [List.lookup])

/-- Claim C4: no-oversell on close. A close with requested quantity `q`
against an open entry of quantity `e.quantity` closes exactly
`min(e.quantity, max(0, q))`, so the remainder is never negative; the
entry is deleted when the remainder is ≤ 1e-9 and otherwise its quantity
is decremented in place; and any sequence of `record_close_position`
calls preserves non-negativity of every open-ledger quantity. -/
theorem recordClose_no_oversell (st : LoggerState) (symbol side : String)
    (cp q : ℚ) (now : ℕ) (t : ClosedTrade) (st' : LoggerState) (e : OpenEntry)
    (h : recordClosePosition st symbol side cp (some q) now = (some t, st'))
    (he : st.open_positions.lookup (posKey symbol side) = some e) :
    t.quantity = min e.quantity (max 0 q)
    ∧ 0 ≤ e.quantity - t.quantity
    ∧ (e.quantity - t.quantity ≤ 1/1000000000 →
        st'.open_positions.lookup (posKey symbol side) = none)
    ∧ (¬ e.quantity - t.quantity ≤ 1/1000000000 →
        st'.open_positions.lookup (posKey symbol side)
          = some ⟨e.entry_price, e.quantity - t.quantity, e.leverage, e.open_time⟩)
    ∧ (∀ (st₀ : LoggerState) (ops : List CloseOp),
        entriesNonneg st₀ → entriesNonneg (applyCloses st₀ ops)) := by
  unfold recordClosePosition recordClosePositionW at h
  dsimp only at h
  rw [he] at h
  dsimp only at h
  split_ifs at h with hcq hside hrem hrem2
  · exact absurd (congrArg Prod.fst h) (by simp)
  · obtain ⟨hfst, hsnd⟩ := Prod.mk.inj h
    obtain rfl := Option.some.inj hfst
    obtain rfl := hsnd
    exact ⟨rfl, by have := min_le_left e.quantity (max 0 q); linarith,
      fun _ => lookup_eraseEntry _ _, fun hc => absurd hrem hc,
      fun st₀ ops hst => applyCloses_preserves_nonneg ops st₀ hst⟩
  · obtain ⟨hfst, hsnd⟩ := Prod.mk.inj h
    obtain rfl := Option.some.inj hfst
    obtain rfl := hsnd
    exact ⟨rfl, by have := min_le_left e.quantity (max 0 q); linarith,
      fun hc => absurd hc hrem, fun _ => lookup_setEntry _ _ _,
      fun st₀ ops hst => applyCloses_preserves_nonneg ops st₀ hst⟩
  · obtain ⟨hfst, hsnd⟩ := Prod.mk.inj h
    obtain rfl := Option.some.inj hfst
    obtain rfl := hsnd
    exact ⟨rfl, by have := min_le_left e.quantity (max 0 q); linarith,
      fun _ => lookup_eraseEntry _ _, fun hc => absurd hrem2 hc,
      fun st₀ ops hst => applyCloses_preserves_nonneg ops st₀ hst⟩
  · obtain ⟨hfst, hsnd⟩ := Prod.mk.inj h
    obtain rfl := Option.some.inj hfst
    obtain rfl := hsnd
    exact ⟨rfl, by have := min_le_left e.quantity (max 0 q); linarith,
      fun hc => absurd hc hrem2, fun _ => lookup_setEntry _ _ _,
      fun st₀ ops hst => applyCloses_preserves_nonneg ops st₀ hst⟩

/-- Witness for C4: open quantity 2, requested close 5 → closes exactly
the remainder 2 and deletes the entry. -/
theorem recordClose_no_oversell_witness :
    (2 : ℚ) = min 2 (max 0 5)
    ∧ (0 : ℚ) ≤ 2 - 2
    ∧ ((2 : ℚ) - 2 ≤ 1/1000000000 →
        List.lookup (posKey "BTC" "long") ([] : List (String × OpenEntry)) = none)
    ∧ (¬ (2 : ℚ) - 2 ≤ 1/1000000000 →
        List.lookup (posKey "BTC" "long") ([] : List (String × OpenEntry))
          = some ⟨100, 2 - 2, 3, 0⟩)
    ∧ (∀ (st₀ : LoggerState) (ops : List CloseOp),
        entriesNonneg st₀ → entriesNonneg (applyCloses st₀ ops)) :=
  recordClose_no_oversell ⟨[(posKey "BTC" "long", ⟨100, 2, 3, 0⟩)], []⟩ "BTC" "long"
    110 5 7 ⟨"BTC", "long", 100, 110, 2, 3, 10, 60, 0, 7⟩
    ⟨[], [⟨"BTC", "long", 100, 110, 2, 3, 10, 60, 0, 7⟩]⟩ ⟨100, 2, 3, 0⟩
    (by norm_num [recordClosePosition, recordClosePositionW, posKey, List.lookup,
      setEntry, eraseEntry, saveTradeHistory, Prod.mk.injEq, LoggerState.mk.injEq,
      ClosedTrade.mk.injEq, OpenEntry.mk.injEq])
    (by simp [List.lookup])

/-- Claim C7, counterexample: the claim reads "a percentage p is
interpreted as a fraction of A when p ≤ 1", under which
`close_quantity_pct = 0` would resolve to quantity 0 ≤ 1e-12 and be
rejected; but `_execute_close` treats any non-positive percentage as
"no explicit quantity" and submits an unconditional full close. -/
theorem closeResolution_zero_pct_full_close :
    executeCloseSizing none (some (some 0)) 1 = CloseOutcome.submit none
    ∧ CloseOutcome.submit (none : Option ℚ) ≠ CloseOutcome.rejected := by
  constructor
  · simp [executeCloseSizing, resolveCloseQuantity]
  · simp

/-- Claim C7 (amended): an absolute `close_quantity` takes precedence
over `close_quantity_pct`; a positive percentage p ≤ 1 is a fraction of
the open amount A, a percentage p > 1 is rescaled by 100 and capped at
100%; a non-positive percentage defaults to a full close; an explicitly
resolved quantity is clamped to [0, A] and the close is rejected when the
clamped value is ≤ 1e-12. -/
theorem closeResolution_amended (pf : Option (Option ℚ)) (v : Option ℚ) (p A q : ℚ) :
    (executeCloseSizing (some v) pf A = executeCloseSizing (some v) none A)
    ∧ (executeCloseSizing (some (some q)) pf A
        = if min A (max 0 q) ≤ 1/1000000000000 then CloseOutcome.rejected
          else CloseOutcome.submit (some (min A (max 0 q))))
    ∧ (0 < p → p ≤ 1 →
        executeCloseSizing none (some (some p)) A
          = if min A (max 0 (A * p)) ≤ 1/1000000000000 then CloseOutcome.rejected
            else CloseOutcome.submit (some (min A (max 0 (A * p)))))
    ∧ (1 < p →
        executeCloseSizing none (some (some p)) A
          = if min A (max 0 (A * min (p/100) 1)) ≤ 1/1000000000000
            then CloseOutcome.rejected
            else CloseOutcome.submit (some (min A (max 0 (A * min (p/100) 1)))))
    ∧ (p ≤ 0 → executeCloseSizing none (some (some p)) A = CloseOutcome.submit none) := by
  refine ⟨rfl, ?_, ?_, ?_, ?_⟩
  · simp only [executeCloseSizing, resolveCloseQuantity]
  · intro hp0 hp1
    simp only [executeCloseSizing, resolveCloseQuantity]
    rw [if_neg (not_le.mpr hp0), if_neg (not_lt.mpr hp1), min_eq_left hp1]
  · intro hp1
    simp only [executeCloseSizing, resolveCloseQuantity]
    rw [if_neg (by linarith : ¬ p ≤ 0), if_pos hp1]
  · intro hp0
    simp only [executeCloseSizing, resolveCloseQuantity]
    rw [if_pos hp0]

/-- Witness for C7 (amended): percentage 1/2 of an open amount 10
resolves to 5 and is submitted. -/
theorem closeResolution_amended_witness :
    (0 : ℚ) < 1/2 ∧ (1/2 : ℚ) ≤ 1
    ∧ executeCloseSizing none (some (some (1/2))) 10
        = if min 10 (max 0 ((10 : ℚ) * (1/2))) ≤ 1/1000000000000
          then CloseOutcome.rejected
          else CloseOutcome.submit (some (min 10 (max 0 ((10 : ℚ) * (1/2))))) :=
  ⟨by norm_num, by norm_num,
   (closeResolution_amended none none (1/2) 10 0).2.2.1 (by norm_num) (by norm_num)⟩

/-- Claim C8 (code bug): the outcome of `record_close_position` is
identical whether the trade-history file write succeeds or raises —
`_save_trade_history` catches every exception and only logs it, and the
call still returns the trade record. The write failure is never surfaced
to the caller. -/
theorem saveFailure_swallowed (st : LoggerState) (symbol side : String) (cp : ℚ)
    (q : Option ℚ) (now : ℕ) (msg : String) :
    recordClosePositionW st symbol side cp q now (.error msg)
      = recordClosePositionW st symbol side cp q now (.ok ()) := rfl

/-- Claim C9: a `record_close_position` with no open entry for the key is
a safe no-op: it returns `None`, appends nothing, and leaves the
open-positions map unchanged (the state is returned as is). -/
theorem recordClose_missing_noop (st : LoggerState) (symbol side : String)
    (cp : ℚ) (q : Option ℚ) (now : ℕ)
    (he : st.open_positions.lookup (posKey symbol side) = none) :
    recordClosePosition st symbol side cp q now = (none, st) := by
  unfold recordClosePosition recordClosePositionW
  dsimp only
  rw [he]

/-- Witness for C9 at the empty ledger. -/
theorem recordClose_missing_noop_witness :
    (⟨[], []⟩ : LoggerState).open_positions.lookup (posKey "ETH" "short") = none
    ∧ recordClosePosition ⟨[], []⟩ "ETH" "short" 10 none 0 = (none, ⟨[], []⟩) :=
  ⟨rfl, recordClose_missing_noop ⟨[], []⟩ "ETH" "short" 10 none 0 rfl⟩

/-- Claim C10: `record_open_position` on a key that already has an open
entry replaces it wholesale: the stored entry's price, quantity, leverage
and open time all become those of the new call (the previous quantity is
not added). -/
theorem recordOpen_overwrites (st : LoggerState) (symbol side : String)
    (p q lev : ℚ) (now : ℕ) (old : OpenEntry)
    (he : st.open_positions.lookup (posKey symbol side) = some old) :
    (recordOpenPosition st symbol side p q lev now).open_positions.lookup
        (posKey symbol side) = some ⟨p, q, lev, now⟩ := by
  unfold recordOpenPosition
  exact lookup_setEntry _ _ _

/-- Witness for C10: re-opening BTC long (previous quantity 2) with
quantity 7 stores quantity 7, not 9. -/
theorem recordOpen_overwrites_witness :
    List.lookup (posKey "BTC" "long")
        [(posKey "BTC" "long", (⟨100, 2, 3, 0⟩ : OpenEntry))] = some ⟨100, 2, 3, 0⟩
    ∧ List.lookup (posKey "BTC" "long")
        (recordOpenPosition ⟨[(posKey "BTC" "long", ⟨100, 2, 3, 0⟩)], []⟩ "BTC" "long"
          200 7 4 9).open_positions = some ⟨200, 7, 4, 9⟩ :=
  ⟨by simp [List.lookup],
   recordOpen_overwrites ⟨[(posKey "BTC" "long", ⟨100, 2, 3, 0⟩)], []⟩ "BTC" "long"
     200 7 4 9 ⟨100, 2, 3, 0⟩ (by simp [List.lookup])⟩

end Roma
